import Mathlib

/-!
Verification development for the ask-human-go Question-Answer Rendezvous Engine.

The Go sources are shallowly embedded:
* the Answer Parser (`FindAnswer` in utils.go) is embedded as an executable
  matcher specialised to its RE2 pattern
  `(?is)### <id>\s*\n.*?\*\*Answer:\*\*\s*(.*?)(?:\n{2,}---|### |$)`,
  with RE2 leftmost-first disambiguation made explicit (greedy `\s*`,
  lazy `.*?`, ordered alternation);
* the Artifact Store helpers (`NormalizeLineEndings`, `SafeWriteText`) are
  embedded with the filesystem effects made explicit through a small
  filesystem record and an outcome environment;
* the Rendezvous Coordinator (`askQuestion` / `askQuestionFile` in server.go)
  is embedded as a state-and-trace transition function whose external
  IO outcomes (stat, append, reads, wake-ups of the composite wait) are
  supplied by an environment record;
* the Change Notifier subscription map and the Pending Registry are embedded
  as association lists with the same operations as the Go maps.
-/

set_option autoImplicit false

namespace AskHuman

/-! ## Character classes -/

/-- RE2 character class `\s`, that is `[\t\n\f\r ]`, used by the pattern of
`FindAnswer`. -/
def reWS (c : Char) : Bool :=
  c = '\t' || c = '\n' || c = Char.ofNat 12 || c = '\r' || c = ' '

/-- Go `unicode.IsSpace`: the White_Space property (Latin-1 plus the Unicode
space separators), used by `strings.TrimSpace`. -/
def goIsSpace (c : Char) : Bool :=
  c = '\t' || c = '\n' || c.toNat = 11 || c.toNat = 12 || c = '\r' || c = ' '
  || c.toNat = 0x85 || c.toNat = 0xA0 || c.toNat = 0x1680
  || (0x2000 ≤ c.toNat && c.toNat ≤ 0x200A)
  || c.toNat = 0x2028 || c.toNat = 0x2029 || c.toNat = 0x202F
  || c.toNat = 0x205F || c.toNat = 0x3000

/-- Go `unicode.IsControl`: the Cc category, `U+0000..U+001F`, `U+007F..U+009F`. -/
def goIsControl (c : Char) : Bool :=
  c.toNat ≤ 0x1F || (0x7F ≤ c.toNat && c.toNat ≤ 0x9F)

/-- ASCII lower-casing of one character; the identifiers, field labels and the
`PENDING` sentinel handled by the parser are ASCII, where Go simple case
folding and ASCII case folding agree. -/
def asciiLower (c : Char) : Char :=
  if 'A' ≤ c && c ≤ 'Z' then Char.ofNat (c.toNat + 32) else c

/-- Case-insensitive character comparison, the `(?i)` flag of the pattern. -/
def ciEqChar (a b : Char) : Bool := asciiLower a == asciiLower b

/-! ## String trimming (Go strings.TrimSpace) -/

/-- Go `strings.TrimSpace` on a character list: drop `unicode.IsSpace`
characters from both ends. -/
def trimSpace (l : List Char) : List Char :=
  ((l.dropWhile goIsSpace).reverse.dropWhile goIsSpace).reverse

/-! ## The Answer Parser (FindAnswer, utils.go) -/

/-- Case-insensitive "the pattern occurs at the head of the text". -/
def ciStartsWith : List Char → List Char → Bool
  | [], _ => true
  | _ :: _, [] => false
  | p :: ps, c :: cs => ciEqChar p c && ciStartsWith ps cs

/-- Literal (case-sensitive) "the pattern occurs at the head of the text". -/
def litStartsWith : List Char → List Char → Bool
  | [], _ => true
  | _ :: _, [] => false
  | p :: ps, c :: cs => (p == c) && litStartsWith ps cs

/-- Case-insensitive "the pattern occurs somewhere in the text". -/
def ciContainsB (pat : List Char) : List Char → Bool
  | [] => ciStartsWith pat []
  | l@(_ :: t) => ciStartsWith pat l || ciContainsB pat t

/-- The literal `\*\*Answer:\*\*` of the pattern. -/
def answerMarker : List Char := "**Answer:**".data

/-- The block header literal `### ` followed by the (regexp-quoted, hence
literal) question identifier. -/
def headerList (qid : List Char) : List Char := "### ".data ++ qid

/-- Lazy scan `.*?\*\*Answer:\*\*` in dotall mode: find the first
(case-insensitive) occurrence of the answer marker and return the remainder
of the text after it; `none` when the marker never occurs. -/
def seekMarker : List Char → Option (List Char)
  | [] => none
  | u@(_ :: t) =>
    if ciStartsWith answerMarker u then some (u.drop answerMarker.length)
    else seekMarker t

/-- The closing alternation `(?:\n{2,}---|### |$)` of the pattern, tested at
the head of `u` (which is a suffix of the subject, so `$` is `u = []`):
either at least two newlines followed by the literal `---` (the greedy
`\n{2,}` forces the `---` to sit right after the whole newline run), or the
literal `### `, or the end of the text. -/
def delimMatch (u : List Char) : Bool :=
  (decide (2 ≤ (u.takeWhile (fun c => c = '\n')).length)
    && litStartsWith "---".data (u.drop (u.takeWhile (fun c => c = '\n')).length))
  || ciStartsWith "### ".data u
  || u.isEmpty

/-- Index of the first position of `u` where the closing alternation matches;
the `$` alternative matches at the end, so the index is at most `u.length`. -/
def leastDelim : List Char → Nat
  | [] => 0
  | u@(_ :: t) => if delimMatch u then 0 else leastDelim t + 1

/-- The suffix `\s*(.*?)(?:\n{2,}---|### |$)` of the pattern applied to the
text after the answer marker: the greedy `\s*` takes the maximal whitespace
run (the lazy capture with the always-satisfiable `$` alternative never forces
it to backtrack), and the lazy `(.*?)` then captures up to the first position
where the closing alternation matches. -/
def captureAfterMarker (tail : List Char) : List Char :=
  (tail.dropWhile reWS).take (leastDelim (tail.dropWhile reWS))

/-- One anchored attempt of the whole pattern at the head of `s`:
`### <qid>` literally (case-insensitively), then `\s*\n` (the maximal
whitespace run must contain a newline; the marker scan resumes after the run,
as the marker cannot begin inside it), then the lazy scan to the first answer
marker, then the capture. Returns the captured (untrimmed) answer text. -/
def matchAt (qid s : List Char) : Option (List Char) :=
  if ciStartsWith (headerList qid) s then
    if ((s.drop (headerList qid).length).takeWhile reWS).any (fun c => c = '\n') then
      match seekMarker ((s.drop (headerList qid).length).dropWhile reWS) with
      | none => none
      | some tail => some (captureAfterMarker tail)
    else none
  else none

/-- RE2 leftmost search: try the anchored attempt at every start position in
order and keep the first success. -/
def findMatch (qid : List Char) : List Char → Option (List Char)
  | [] => matchAt qid []
  | s@(_ :: t) =>
    match matchAt qid s with
    | some a => some a
    | none => findMatch qid t

/-- Go `FindAnswer(content, questionID) (string, bool)` (utils.go): run the
pattern, trim the captured answer, and report not-found when there is no
match or the trimmed answer case-insensitively equals the pending sentinel. -/
def FindAnswer (content questionID : String) : String × Bool :=
  match findMatch questionID.data content.data with
  | none => ("", false)
  | some raw =>
    let answer := trimSpace raw
    if answer.map asciiLower = "pending".data then ("", false)
    else (⟨answer⟩, true)

/-! ## The artifact block format (AppendQuestion, utils.go) -/

/-- Middle fields of an appended question block, between the header line and
the answer field. -/
def midPart (ts q ctx : List Char) : List Char :=
  "**Timestamp:** ".data ++ ts ++ "  \n**Question:** ".data ++ q
    ++ "  \n**Context:** ".data ++ ctx ++ "  \n".data

/-- A question block as `AppendQuestion` formats it, with `ans` standing in
the answer field (`AppendQuestion` itself writes the `PENDING` sentinel
there; a human later overwrites it in place). -/
def blockList (qid ts q ctx ans : List Char) : List Char :=
  "\n---\n\n### ".data ++ qid ++ "\n\n".data ++ midPart ts q ctx
    ++ "**Answer:** ".data ++ ans ++ "\n\n".data

/-! ## Matcher lemmas -/

theorem ciEqChar_refl (c : Char) : ciEqChar c c = true := by
  simp [ciEqChar]

theorem ciStartsWith_append_self (l r : List Char) :
    ciStartsWith l (l ++ r) = true := by
  induction l with
  | nil => rfl
  | cons c cs ih => simp [ciStartsWith, ciEqChar_refl, ih]

theorem ciStartsWith_nil (p : Char) (ps : List Char) :
    ciStartsWith (p :: ps) [] = false := rfl

/-- The leftmost-search recursion: if the anchored attempt fails at every
position before `n` and succeeds at `n`, the search returns that success. -/
theorem findMatch_eq_of (qid : List Char) :
    ∀ (n : Nat) (s : List Char) (a : List Char),
      (∀ i, i < n → matchAt qid (s.drop i) = none) →
      matchAt qid (s.drop n) = some a →
      findMatch qid s = some a := by
  intro n
  induction n with
  | zero =>
    intro s a _ h0
    cases s with
    | nil => simpa [findMatch] using h0
    | cons c t => simp only [List.drop_zero] at h0; simp [findMatch, h0]
  | succ n ih =>
    intro s a hlt hn
    have h0 : matchAt qid s = none := by simpa using hlt 0 (Nat.succ_pos n)
    cases s with
    | nil =>
      rw [List.drop_nil] at hn
      simp only [List.drop_nil] at h0
      rw [h0] at hn; cases hn
    | cons c t =>
      have : findMatch qid (c :: t) = findMatch qid t := by
        simp [findMatch, h0]
      rw [this]
      refine ih t a (fun i hi => ?_) (by simpa using hn)
      have := hlt (i + 1) (Nat.succ_lt_succ hi)
      simpa using this

theorem findMatch_eq_none (qid : List Char) :
    ∀ (s : List Char), (∀ i, matchAt qid (s.drop i) = none) →
      findMatch qid s = none := by
  intro s
  induction s with
  | nil => intro h; simpa [findMatch] using h 0
  | cons c t ih =>
    intro h
    have h0 : matchAt qid (c :: t) = none := by simpa using h 0
    have ht : findMatch qid t = none := ih (fun i => by simpa using h (i + 1))
    simp [findMatch, h0, ht]

/-- The lazy marker scan returns the suffix after the first occurrence. -/
theorem seekMarker_eq_of :
    ∀ (n : Nat) (u : List Char),
      (∀ j, j < n → ciStartsWith answerMarker (u.drop j) = false) →
      ciStartsWith answerMarker (u.drop n) = true →
      seekMarker u = some ((u.drop n).drop answerMarker.length) := by
  intro n
  induction n with
  | zero =>
    intro u _ h0
    cases u with
    | nil => rw [List.drop_nil] at h0; cases h0
    | cons c t => simp only [List.drop_zero] at h0 ⊢; simp [seekMarker, h0]
  | succ n ih =>
    intro u hlt hn
    have h0 : ciStartsWith answerMarker u = false := by simpa using hlt 0 (Nat.succ_pos n)
    cases u with
    | nil => rw [List.drop_nil] at hn; cases hn
    | cons c t =>
      have : seekMarker (c :: t) = seekMarker t := by simp [seekMarker, h0]
      rw [this]
      have hres := ih t (fun j hj => by simpa using hlt (j + 1) (Nat.succ_lt_succ hj))
        (by simpa using hn)
      simpa using hres

theorem seekMarker_eq_none :
    ∀ (u : List Char), (∀ j, ciStartsWith answerMarker (u.drop j) = false) →
      seekMarker u = none := by
  intro u
  induction u with
  | nil => intro _; rfl
  | cons c t ih =>
    intro h
    have h0 : ciStartsWith answerMarker (c :: t) = false := by simpa using h 0
    have ht : seekMarker t = none := ih (fun j => by simpa using h (j + 1))
    simp [seekMarker, h0, ht]

/-- The lazy capture stops at the first position where the closing
alternation matches. -/
theorem leastDelim_eq_of :
    ∀ (n : Nat) (u : List Char),
      (∀ m, m < n → delimMatch (u.drop m) = false) →
      delimMatch (u.drop n) = true →
      leastDelim u = n := by
  intro n
  induction n with
  | zero =>
    intro u _ h0
    cases u with
    | nil => rfl
    | cons c t => simp only [List.drop_zero] at h0; simp [leastDelim, h0]
  | succ n ih =>
    intro u hlt hn
    have h0 : delimMatch u = false := by simpa using hlt 0 (Nat.succ_pos n)
    cases u with
    | nil => simp [delimMatch, List.isEmpty] at h0
    | cons c t =>
      have ht : leastDelim t = n := ih t
        (fun m hm => by simpa using hlt (m + 1) (Nat.succ_lt_succ hm))
        (by simpa using hn)
      simp [leastDelim, h0, ht]

theorem ciContainsB_false_drop (pat : List Char) :
    ∀ (l : List Char), ciContainsB pat l = false →
      ∀ i, ciStartsWith pat (l.drop i) = false := by
  intro l
  induction l with
  | nil =>
    intro h i
    simpa [ciContainsB, List.drop_nil] using h
  | cons c t ih =>
    intro h i
    rw [ciContainsB] at h
    rcases Bool.or_eq_false_iff.mp h with ⟨h1, h2⟩
    cases i with
    | zero => simpa using h1
    | succ i => simpa using ih h2 i

/-! ## dropWhile / takeWhile / trim lemmas -/

theorem dropWhile_append_ne_nil {p : Char → Bool} :
    ∀ (a b : List Char), a.dropWhile p ≠ [] →
      (a ++ b).dropWhile p = a.dropWhile p ++ b := by
  intro a
  induction a with
  | nil => intro b h; exact absurd rfl h
  | cons c t ih =>
    intro b h
    by_cases hc : p c
    · rw [List.dropWhile_cons] at h ⊢
      simp only [hc, if_true] at h
      simpa [List.cons_append, List.dropWhile_cons, hc] using ih b h
    · simp [List.cons_append, List.dropWhile_cons, hc]

theorem dropWhile_subset_absorb {p q : Char → Bool}
    (hpq : ∀ c, p c = true → q c = true) :
    ∀ (l : List Char), (l.dropWhile p).dropWhile q = l.dropWhile q := by
  intro l
  induction l with
  | nil => rfl
  | cons c t ih =>
    by_cases hc : p c
    · have hq : q c = true := hpq c hc
      simp [List.dropWhile_cons, hc, hq, ih]
    · simp [List.dropWhile_cons, hc]

theorem dropWhile_eq_nil_of_nil {p : Char → Bool} {l : List Char}
    (h : l.dropWhile p = []) : ∀ c ∈ l, p c = true := by
  induction l with
  | nil => intro c hc; cases hc
  | cons c t ih =>
    by_cases hc : p c
    · rw [List.dropWhile_cons, if_pos hc] at h
      intro d hd
      rcases List.mem_cons.mp hd with rfl | hd
      · exact hc
      · exact ih h d hd
    · rw [List.dropWhile_cons, if_neg hc] at h
      cases h

theorem reWS_le_goIsSpace (c : Char) (h : reWS c = true) : goIsSpace c = true := by
  rw [reWS] at h
  rcases Bool.or_eq_true_iff.mp h with h | h
  · rcases Bool.or_eq_true_iff.mp h with h | h
    · rcases Bool.or_eq_true_iff.mp h with h | h
      · rcases Bool.or_eq_true_iff.mp h with h | h
        · simp only [decide_eq_true_eq] at h; subst h; decide
        · simp only [decide_eq_true_eq] at h; subst h; decide
      · simp only [decide_eq_true_eq] at h; subst h; decide
    · simp only [decide_eq_true_eq] at h; subst h; decide
  · simp only [decide_eq_true_eq] at h; subst h; decide

theorem trimSpace_dropWhile_reWS (l : List Char) :
    trimSpace (l.dropWhile reWS) = trimSpace l := by
  rw [trimSpace, trimSpace, dropWhile_subset_absorb reWS_le_goIsSpace]

theorem dropWhile_idem {p : Char → Bool} (l : List Char) :
    (l.dropWhile p).dropWhile p = l.dropWhile p := by
  induction l with
  | nil => rfl
  | cons c t ih =>
    by_cases hc : p c
    · simp [List.dropWhile_cons, hc, ih]
    · simp [List.dropWhile_cons, hc]

theorem getLast?_dropWhile {p : Char → Bool} :
    ∀ (l : List Char), l.dropWhile p ≠ [] →
      (l.dropWhile p).getLast? = l.getLast? := by
  intro l
  induction l with
  | nil => intro h; exact absurd rfl h
  | cons c t ih =>
    intro h
    by_cases hc : p c
    · rw [List.dropWhile_cons, if_pos hc] at h ⊢
      cases t with
      | nil => exact absurd rfl h
      | cons d ts => rw [ih h, List.getLast?_cons_cons]
    · rw [List.dropWhile_cons, if_neg hc]

theorem head?_dropWhile_not {p : Char → Bool} :
    ∀ (l : List Char) (c : Char) (cs : List Char),
      l.dropWhile p = c :: cs → p c = false := by
  intro l
  induction l with
  | nil => intro c cs h; cases h
  | cons d t ih =>
    intro c cs h
    by_cases hd : p d
    · rw [List.dropWhile_cons, if_pos hd] at h
      exact ih c cs h
    · rw [List.dropWhile_cons, if_neg hd] at h
      cases h
      simpa using hd

theorem dropWhile_eq_self_of_head {p : Char → Bool} (c : Char) (cs : List Char)
    (h : p c = false) : (c :: cs).dropWhile p = c :: cs := by
  simp [List.dropWhile_cons, h]

theorem trimSpace_idem (l : List Char) : trimSpace (trimSpace l) = trimSpace l := by
  rw [trimSpace]
  set A := l.dropWhile goIsSpace with hA
  set B := A.reverse.dropWhile goIsSpace with hB
  show ((B.reverse.dropWhile goIsSpace).reverse.dropWhile goIsSpace).reverse = B.reverse
  have h1 : B.reverse.dropWhile goIsSpace = B.reverse := by
    cases hBr : B.reverse with
    | nil => rfl
    | cons c cs =>
      refine dropWhile_eq_self_of_head c cs ?_
      have hBne : B ≠ [] := by
        intro he; rw [he] at hBr; cases hBr
      have hAne : A ≠ [] := by
        intro he
        apply hBne
        rw [hB, he]
        rfl
      have hhead : B.getLast? = some c := by
        rw [← List.head?_reverse, hBr]; rfl
      have hlastA : B.getLast? = A.head? := by
        rw [hB, getLast?_dropWhile A.reverse hBne, List.getLast?_reverse]
      cases hAc : A with
      | nil => exact absurd hAc hAne
      | cons a as =>
        have hpa : goIsSpace a = false := head?_dropWhile_not l a as (by rw [← hA, hAc])
        have h3 : A.head? = some c := by rw [← hlastA, hhead]
        rw [hAc] at h3
        simp only [List.head?_cons, Option.some.injEq] at h3
        rwa [h3] at hpa
  rw [h1]
  have h2 : B.reverse.reverse.dropWhile goIsSpace = B := by
    rw [List.reverse_reverse, hB, dropWhile_idem]
  rw [h2]

theorem dropWhile_append_all {p : Char → Bool} :
    ∀ (a b : List Char), (∀ c ∈ a, p c = true) →
      (a ++ b).dropWhile p = b.dropWhile p := by
  intro a
  induction a with
  | nil => intro b _; rfl
  | cons c t ih =>
    intro b h
    have hc : p c = true := h c (List.mem_cons_self c t)
    have ht : ∀ d ∈ t, p d = true := fun d hd => h d (List.mem_cons_of_mem c hd)
    simp [List.cons_append, List.dropWhile_cons, hc, ih b ht]

theorem trimSpace_append_ws (x : List Char) (w : List Char)
    (hx : x.dropWhile goIsSpace ≠ [])
    (hw : ∀ c ∈ w, goIsSpace c = true) :
    trimSpace (x ++ w) = trimSpace x := by
  rw [trimSpace, trimSpace, dropWhile_append_ne_nil x w hx]
  congr 1
  rw [List.reverse_append]
  exact dropWhile_append_all w.reverse (x.dropWhile goIsSpace).reverse
    (fun c hc => hw c (List.mem_reverse.mp hc))

/-! ## Parsing a well-formed block -/

theorem matchAt_none_of_header {qid s : List Char}
    (h : ciStartsWith (headerList qid) s = false) : matchAt qid s = none := by
  simp [matchAt, h]

theorem midPart_append_cons (ts q ctx z : List Char) :
    midPart ts q ctx ++ z
      = '*' :: ("*Timestamp:** ".data ++ (ts ++ ("  \n**Question:** ".data
          ++ (q ++ ("  \n**Context:** ".data ++ (ctx ++ ("  \n".data ++ z))))))) := by
  rw [midPart]
  simp only [List.append_assoc, List.cons_append]

theorem takeWhile_midPart (ts q ctx z : List Char) :
    ((midPart ts q ctx ++ z).takeWhile reWS) = [] := by
  rw [midPart_append_cons, List.takeWhile_cons,
    if_neg (by decide : ¬ (reWS '*' = true))]

theorem dropWhile_midPart (ts q ctx z : List Char) :
    ((midPart ts q ctx ++ z).dropWhile reWS) = midPart ts q ctx ++ z := by
  rw [midPart_append_cons, List.dropWhile_cons,
    if_neg (by decide : ¬ (reWS '*' = true))]

/-- Core parsing fact: on an artifact `pre ++ block ++ post` whose block for
`qid` was appended by `AppendQuestion` and whose answer field a human has
overwritten with `ans`, the matcher captures a text that trims to the trimmed
`ans`, provided the block header does not also occur (case-insensitively)
before the block, the answer marker does not occur before the real answer
field, the answer has substance, no block delimiter fires inside the answer,
and what follows the block is empty or another appended block. -/
theorem findMatch_block (pre qid ts q ctx ans post : List Char)
    (H1 : ∀ i, i < pre.length + 6 →
      ciStartsWith (headerList qid) ((pre ++ blockList qid ts q ctx ans ++ post).drop i) = false)
    (H2 : ∀ j, j < (midPart ts q ctx).length →
      ciStartsWith answerMarker
        ((midPart ts q ctx ++ (answerMarker ++ (' ' :: (ans ++ ('\n' :: '\n' :: post))))).drop j) = false)
    (H3 : (ans.dropWhile reWS).dropWhile goIsSpace ≠ [])
    (H4 : ∀ m, m < (ans.dropWhile reWS).length →
      delimMatch ((ans.dropWhile reWS ++ ('\n' :: '\n' :: post)).drop m) = false)
    (H5 : post = [] ∨ ∃ r, post = '\n' :: '-' :: '-' :: '-' :: r) :
    ∃ cap, findMatch qid (pre ++ blockList qid ts q ctx ans ++ post) = some cap ∧
      trimSpace cap = trimSpace ans := by
  have wnl : reWS '\n' = true := by decide
  set U : List Char :=
    midPart ts q ctx ++ (answerMarker ++ (' ' :: (ans ++ ('\n' :: '\n' :: post)))) with hU
  have hcontent : pre ++ blockList qid ts q ctx ans ++ post
      = (pre ++ "\n---\n\n".data) ++ (headerList qid ++ ('\n' :: '\n' :: U)) := by
    rw [hU, blockList, headerList]
    simp only [List.append_assoc, List.cons_append]
    rfl
  -- the lazy scan finds the real answer marker
  have hseek : seekMarker U = some (' ' :: (ans ++ ('\n' :: '\n' :: post))) := by
    have hat : ciStartsWith answerMarker (U.drop (midPart ts q ctx).length) = true := by
      rw [hU, List.drop_left]
      exact ciStartsWith_append_self answerMarker _
    have hres := seekMarker_eq_of (midPart ts q ctx).length U H2 hat
    rw [hres, hU, List.drop_left, List.drop_left]
  -- the capture after the marker
  set a : List Char := ans.dropWhile reWS with ha
  have hane : a ≠ [] := by
    intro he
    apply H3
    rw [he]
    rfl
  have hu : (' ' :: (ans ++ ('\n' :: '\n' :: post))).dropWhile reWS
      = a ++ ('\n' :: '\n' :: post) := by
    rw [List.dropWhile_cons, if_pos (by decide : reWS ' ' = true)]
    rw [dropWhile_append_ne_nil ans _ (ha ▸ hane)]
  have hcap : ∃ cap, captureAfterMarker (' ' :: (ans ++ ('\n' :: '\n' :: post))) = cap ∧
      trimSpace cap = trimSpace ans := by
    rcases H5 with hpost | ⟨r, hpost⟩
    · -- final block: the capture runs to the end of the text
      subst hpost
      have hld : leastDelim (a ++ ['\n', '\n']) = a.length + 2 := by
        refine leastDelim_eq_of (a.length + 2) (a ++ ['\n', '\n']) ?_ ?_
        · intro m hm
          by_cases hma : m < a.length
          · exact H4 m hma
          · rcases (by omega : m = a.length ∨ m = a.length + 1) with h | h
            · subst h
              rw [List.drop_left]
              decide
            · subst h
              have e1 : (a ++ ['\n', '\n']).drop (a.length + 1)
                  = ((a ++ ['\n', '\n']).drop a.length).drop 1 := by
                rw [List.drop_drop, Nat.add_comm]
              rw [e1, List.drop_left]
              decide
        · have hnil : (a ++ ['\n', '\n']).drop (a.length + 2) = [] := by
            apply List.drop_eq_nil_of_le
            simp [List.length_append]
          rw [hnil]
          decide
      refine ⟨a ++ ['\n', '\n'], ?_, ?_⟩
      · rw [captureAfterMarker]
        rw [hu, hld]
        have hlen : (a ++ ['\n', '\n']).length = a.length + 2 := by
          simp [List.length_append]
        rw [← hlen, List.take_length]
      · rw [trimSpace_append_ws a ['\n', '\n'] H3 (by decide), ha, trimSpace_dropWhile_reWS]
    · -- another appended block follows: the capture stops at its separator
      subst hpost
      have hdel : delimMatch ((a ++ ('\n' :: '\n' :: ('\n' :: '-' :: '-' :: '-' :: r))).drop a.length) = true := by
        rw [List.drop_left, delimMatch]
        have htw : (('\n' :: '\n' :: '\n' :: '-' :: '-' :: '-' :: r).takeWhile
            (fun c => c = '\n')) = ['\n', '\n', '\n'] := by
          rw [List.takeWhile_cons, if_pos (by decide : (decide (('\n' : Char) = '\n')) = true)]
          rw [List.takeWhile_cons, if_pos (by decide : (decide (('\n' : Char) = '\n')) = true)]
          rw [List.takeWhile_cons, if_pos (by decide : (decide (('\n' : Char) = '\n')) = true)]
          rw [List.takeWhile_cons, if_neg (by decide : ¬ ((decide (('-' : Char) = '\n')) = true))]
        rw [htw]
        simp [litStartsWith]
      have hld : leastDelim (a ++ ('\n' :: '\n' :: ('\n' :: '-' :: '-' :: '-' :: r))) = a.length := by
        refine leastDelim_eq_of a.length _ ?_ hdel
        intro m hm
        exact H4 m hm
      refine ⟨a, ?_, ?_⟩
      · rw [captureAfterMarker]
        rw [hu, hld, List.take_left]
      · rw [ha, trimSpace_dropWhile_reWS]
  obtain ⟨cap, hcapeq, htrim⟩ := hcap
  refine ⟨cap, ?_, htrim⟩
  rw [hcontent]
  refine findMatch_eq_of qid (pre ++ "\n---\n\n".data).length _ cap ?_ ?_
  · intro i hi
    apply matchAt_none_of_header
    rw [← hcontent]
    refine H1 i ?_
    have hlen : (pre ++ "\n---\n\n".data).length = pre.length + 6 := by
      simp [List.length_append]
    rwa [hlen] at hi
  · rw [List.drop_left]
    unfold matchAt
    rw [if_pos (ciStartsWith_append_self (headerList qid) ('\n' :: '\n' :: U))]
    rw [List.drop_left]
    have htake : (('\n' :: '\n' :: U).takeWhile reWS) = ['\n', '\n'] := by
      rw [List.takeWhile_cons, if_pos wnl, List.takeWhile_cons, if_pos wnl, hU,
        takeWhile_midPart]
    have hdropU : (('\n' :: '\n' :: U).dropWhile reWS) = U := by
      rw [List.dropWhile_cons, if_pos wnl, List.dropWhile_cons, if_pos wnl, hU,
        dropWhile_midPart]
    rw [htake]
    rw [if_pos (by decide : ((['\n', '\n'].any (fun c => c = '\n')) = true))]
    rw [hdropU, hseek]
    exact congrArg some hcapeq

/-! ## Further parser helper lemmas -/

theorem FindAnswer_eq (content questionID : String) :
    FindAnswer content questionID
      = match findMatch questionID.data content.data with
        | none => ("", false)
        | some raw =>
          if (trimSpace raw).map asciiLower = "pending".data then ("", false)
          else (⟨trimSpace raw⟩, true) := rfl

theorem dropWhile_eq_drop (p : Char → Bool) :
    ∀ (l : List Char), l.dropWhile p = l.drop ((l.takeWhile p).length) := by
  intro l
  induction l with
  | nil => rfl
  | cons c t ih =>
    by_cases hc : p c
    · rw [List.dropWhile_cons, if_pos hc, List.takeWhile_cons, if_pos hc]
      simpa using ih
    · rw [List.dropWhile_cons, if_neg hc, List.takeWhile_cons, if_neg hc]
      rfl

theorem matchAt_none_of_noMarker (qid s : List Char)
    (h : ∀ j, ciStartsWith answerMarker (s.drop j) = false) :
    matchAt qid s = none := by
  unfold matchAt
  by_cases h1 : ciStartsWith (headerList qid) s = true
  · rw [if_pos h1]
    by_cases h2 : (((s.drop (headerList qid).length).takeWhile reWS).any
        (fun c => c = '\n')) = true
    · rw [if_pos h2]
      have hseeknone : seekMarker ((s.drop (headerList qid).length).dropWhile reWS)
          = none := by
        apply seekMarker_eq_none
        intro j
        rw [dropWhile_eq_drop, List.drop_drop, List.drop_drop]
        exact h _
      rw [hseeknone]
    · rw [if_neg h2]
  · rw [if_neg h1]

/-! ## Claim C1 -/

/-- C1: for every artifact of the form `prefix ++ block ++ rest`, where the
block for `qid` was appended by `AppendQuestion` and its answer field now
holds `ans`, `FindAnswer` returns the trimmed `ans` with `found = true`,
provided the block header does not occur earlier, the answer marker does not
occur between the header and the real answer field, the answer has a
non-whitespace character and does not itself contain a block boundary, the
rest of the artifact is empty or further appended blocks, and the trimmed
answer is not the pending sentinel.  Multi-line answers are captured in full
up to the next block boundary. -/
theorem c1_ask_returns_trimmed_answer (pre qid ts q ctx ans post : List Char)
    (H1 : ∀ i, i < pre.length + 6 →
      ciStartsWith (headerList qid) ((pre ++ blockList qid ts q ctx ans ++ post).drop i) = false)
    (H2 : ∀ j, j < (midPart ts q ctx).length →
      ciStartsWith answerMarker
        ((midPart ts q ctx ++ (answerMarker ++ (' ' :: (ans ++ ('\n' :: '\n' :: post))))).drop j) = false)
    (H3 : (ans.dropWhile reWS).dropWhile goIsSpace ≠ [])
    (H4 : ∀ m, m < (ans.dropWhile reWS).length →
      delimMatch ((ans.dropWhile reWS ++ ('\n' :: '\n' :: post)).drop m) = false)
    (H5 : post = [] ∨ ∃ r, post = '\n' :: '-' :: '-' :: '-' :: r)
    (H6 : (trimSpace ans).map asciiLower ≠ "pending".data) :
    FindAnswer ⟨pre ++ blockList qid ts q ctx ans ++ post⟩ ⟨qid⟩
      = (⟨trimSpace ans⟩, true) := by
  obtain ⟨cap, hfm, htrim⟩ := findMatch_block pre qid ts q ctx ans post H1 H2 H3 H4 H5
  rw [FindAnswer_eq]
  rw [show (⟨pre ++ blockList qid ts q ctx ans ++ post⟩ : String).data
      = pre ++ blockList qid ts q ctx ans ++ post from rfl]
  rw [show (⟨qid⟩ : String).data = qid from rfl]
  rw [hfm]
  show (if (trimSpace cap).map asciiLower = "pending".data then (("" : String), false)
      else ((⟨trimSpace cap⟩ : String), true)) = ((⟨trimSpace ans⟩ : String), true)
  rw [htrim, if_neg H6]

/-- Witness for C1 at a concrete artifact holding one block with a
multi-line answer. -/
theorem c1_ask_returns_trimmed_answer_witness :
    FindAnswer "\n---\n\n### Q1\n\n**Timestamp:** 2025-01-01 10:00:00  \n**Question:** pick a color  \n**Context:** build  \n**Answer:** blue\nand green\n\n" "Q1"
      = ("blue\nand green", true) := by
  have h := c1_ask_returns_trimmed_answer [] "Q1".data "2025-01-01 10:00:00".data
    "pick a color".data "build".data "blue\nand green".data []
    (by decide) (by decide) (by decide) (by decide) (Or.inl rfl) (by decide)
  exact h

/-! ## Claim C2 -/

/-- C2 counterexample: a malformed block (its answer marker is missing) is
not reported as not-found when a later block holds an answer: the lazy
dotall scan `.*?` of the pattern crosses the block boundary and returns the
answer of a later block for the identifier of the malformed block. -/
theorem c2_counterexample :
    FindAnswer "### Q1\nmalformed block with no marker\n\n---\n\n### Q2\n\n**Answer:** blue\n\n" "Q1"
      = ("blue", true) := by decide

/-- C2 (amended): `FindAnswer` reports not-found (empty answer, `false`) and
never an error when: the block header of the identifier is absent;
or the answer marker occurs nowhere in the text (in particular for a
malformed block not followed by any answered block); or the extracted answer
value case-insensitively equals the pending sentinel.  (The original
claim that a malformed block is not-found holds only when no later answer
marker: the scan is not confined to the block, see `c2_counterexample`.) -/
theorem c2_not_found_cases :
    (∀ content questionID : String,
      ciContainsB (headerList questionID.data) content.data = false →
      FindAnswer content questionID = ("", false)) ∧
    (∀ content questionID : String,
      ciContainsB answerMarker content.data = false →
      FindAnswer content questionID = ("", false)) ∧
    (∀ pre qid ts q ctx ans post : List Char,
      (∀ i, i < pre.length + 6 →
        ciStartsWith (headerList qid) ((pre ++ blockList qid ts q ctx ans ++ post).drop i) = false) →
      (∀ j, j < (midPart ts q ctx).length →
        ciStartsWith answerMarker
          ((midPart ts q ctx ++ (answerMarker ++ (' ' :: (ans ++ ('\n' :: '\n' :: post))))).drop j) = false) →
      (ans.dropWhile reWS).dropWhile goIsSpace ≠ [] →
      (∀ m, m < (ans.dropWhile reWS).length →
        delimMatch ((ans.dropWhile reWS ++ ('\n' :: '\n' :: post)).drop m) = false) →
      (post = [] ∨ ∃ r, post = '\n' :: '-' :: '-' :: '-' :: r) →
      (trimSpace ans).map asciiLower = "pending".data →
      FindAnswer ⟨pre ++ blockList qid ts q ctx ans ++ post⟩ ⟨qid⟩ = ("", false)) := by
  refine ⟨?_, ?_, ?_⟩
  · intro content questionID h
    have hdrop := ciContainsB_false_drop _ _ h
    have hfm : findMatch questionID.data content.data = none :=
      findMatch_eq_none questionID.data content.data
        (fun i => matchAt_none_of_header (hdrop i))
    rw [FindAnswer_eq, hfm]
  · intro content questionID h
    have hdrop := ciContainsB_false_drop _ _ h
    have hfm : findMatch questionID.data content.data = none :=
      findMatch_eq_none questionID.data content.data
        (fun i => matchAt_none_of_noMarker _ _
          (fun j => by rw [List.drop_drop]; exact hdrop _))
    rw [FindAnswer_eq, hfm]
  · intro pre qid ts q ctx ans post H1 H2 H3 H4 H5 Hpend
    obtain ⟨cap, hfm, htrim⟩ := findMatch_block pre qid ts q ctx ans post H1 H2 H3 H4 H5
    rw [FindAnswer_eq]
    rw [show (⟨pre ++ blockList qid ts q ctx ans ++ post⟩ : String).data
        = pre ++ blockList qid ts q ctx ans ++ post from rfl]
    rw [show (⟨qid⟩ : String).data = qid from rfl]
    rw [hfm]
    show (if (trimSpace cap).map asciiLower = "pending".data then (("" : String), false)
        else ((⟨trimSpace cap⟩ : String), true)) = (("" : String), false)
    rw [htrim, if_pos Hpend]

/-- Witness for the amended C2 at concrete inputs: absent header, marker-less
text, and a block answered with the pending sentinel in mixed case. -/
theorem c2_not_found_cases_witness :
    FindAnswer "### Q2\n\n**Answer:** blue\n\n" "Q1" = ("", false) ∧
    FindAnswer "### Q1\nno marker anywhere" "Q1" = ("", false) ∧
    FindAnswer "\n---\n\n### Q1\n\n**Timestamp:** t  \n**Question:** q  \n**Context:** c  \n**Answer:** PeNdInG\n\n" "Q1"
      = ("", false) := by
  refine ⟨?_, ?_, ?_⟩
  · exact c2_not_found_cases.1 "### Q2\n\n**Answer:** blue\n\n" "Q1" (by decide)
  · exact c2_not_found_cases.2.1 "### Q1\nno marker anywhere" "Q1" (by decide)
  · exact c2_not_found_cases.2.2 [] "Q1".data "t".data "q".data "c".data
      "PeNdInG".data [] (by decide) (by decide) (by decide) (by decide)
      (Or.inl rfl) (by decide)

/-! ## Claim C6 -/

/-- C6: the answer-parsing path is a total function that never faults:
on every artifact content and identifier (malformed content included)
`FindAnswer` either reports not-found with an empty answer, or returns a
found answer that is already trimmed and is not the pending sentinel. -/
theorem c6_parser_total (content questionID : String) :
    FindAnswer content questionID = ("", false) ∨
    ∃ a : String, FindAnswer content questionID = (a, true) ∧
      trimSpace a.data = a.data ∧ a.data.map asciiLower ≠ "pending".data := by
  rw [FindAnswer_eq]
  cases hfm : findMatch questionID.data content.data with
  | none => exact Or.inl rfl
  | some raw =>
    by_cases hp : (trimSpace raw).map asciiLower = "pending".data
    · exact Or.inl (if_pos hp)
    · refine Or.inr ⟨⟨trimSpace raw⟩, if_neg hp, ?_, ?_⟩
      · show trimSpace (trimSpace raw) = trimSpace raw
        exact trimSpace_idem raw
      · exact hp

/-! ## Input validation (ValidateInput, utils.go) -/

/-- Sanitisation pass of `ValidateInput`: `strings.Map` removing control
characters except newline and tab. -/
def sanitizeText (s : String) : String :=
  ⟨s.data.filterMap (fun r =>
    if r = '\n' || r = '\t' then some r
    else if goIsControl r then none
    else some r)⟩

/-- Typed error taxonomy of the engine (errors.go sentinels plus the wrapped
arguments each `fmt.Errorf` records). -/
inductive AskError where
  | inputValidation (fieldName : String) (chars maxLen : Nat)
  | tooManyQuestions (pending maxPending : Nat)
  | fileTooLarge (size maxSize : Nat)
  | fileAccess
  | questionTimeout (questionID : String) (timeoutDuration : Nat)
  | serverShutdown
  deriving DecidableEq

/-- Go `ValidateInput(text, maxLength, fieldName)`: reject when the UTF-8
byte length exceeds the limit, otherwise return the sanitised text. -/
def ValidateInput (text : String) (maxLength : Nat) (fieldName : String) :
    Except AskError String :=
  if text.utf8ByteSize > maxLength then
    .error (.inputValidation fieldName text.utf8ByteSize maxLength)
  else .ok (sanitizeText text)

/-! ## Artifact Store (NormalizeLineEndings / SafeWriteText, utils.go) -/

/-- First pass of `NormalizeLineEndings`: `strings.ReplaceAll(text, CRLF, LF)`
(left-to-right, non-overlapping). -/
def replaceCRLF : List Char → List Char
  | [] => []
  | [c] => [c]
  | c :: d :: rest =>
    if c = '\r' && d = '\n' then '\n' :: replaceCRLF rest
    else c :: replaceCRLF (d :: rest)

/-- Second pass of `NormalizeLineEndings`: `strings.ReplaceAll(text, CR, LF)`. -/
def replaceCR : List Char → List Char
  | [] => []
  | c :: rest => (if c = '\r' then '\n' else c) :: replaceCR rest

/-- Go `NormalizeLineEndings`: Windows and old-Mac line endings become Unix. -/
def NormalizeLineEndings (text : String) : String :=
  ⟨replaceCR (replaceCRLF text.data)⟩

/-- Outcomes of the three filesystem operations `SafeWriteText` performs. -/
structure WriteEnv where
  mkdirOk : Bool
  writeTmpOk : Bool
  renameOk : Bool

/-- The slice of the filesystem `SafeWriteText` touches: the target artifact,
its temporary sibling, and the parent directory. -/
structure ArtifactFS where
  dirExists : Bool
  target : Option String
  tmpFile : Option String
  deriving DecidableEq

inductive WriteErr where
  | mkdirFailed
  | writeTmpFailed
  | renameFailed
  deriving DecidableEq

/-- Go `SafeWriteText(filePath, content)`: normalise line endings, create the
missing parent directory, write the temporary sibling, atomically rename it
over the target; on rename failure remove the temporary file and leave the
target untouched. -/
def SafeWriteText (env : WriteEnv) (fs : ArtifactFS) (content : String) :
    Except WriteErr Unit × ArtifactFS :=
  if !env.mkdirOk then (.error .mkdirFailed, fs)
  else
    if !env.writeTmpOk then (.error .writeTmpFailed, { fs with dirExists := true })
    else
      if !env.renameOk then
        (.error .renameFailed,
          { fs with dirExists := true, tmpFile := none })
      else
        (.ok (),
          { dirExists := true,
            target := some (NormalizeLineEndings content),
            tmpFile := none })

/-! ## Change Notifier subscriptions (FileWatcher, filewatcher.go) -/

/-- The `callbacks` map of the watcher: question identifier to the single-slot
channel, represented by whether its one buffer slot is full. -/
abbrev CallbackMap := List (String × Bool)

/-- Go `RegisterCallback`: create a fresh empty single-slot channel and store
it under the identifier (map assignment replaces any previous entry). -/
def RegisterCallback (questionID : String) (m : CallbackMap) : CallbackMap :=
  (questionID, false) :: m.filter (fun p => p.1 ≠ questionID)

/-- Go `UnregisterCallback`: when the identifier has a channel, close it and
delete the entry (the `Bool` reports whether a channel was closed); when it
has none, do nothing. -/
def UnregisterCallback (questionID : String) (m : CallbackMap) :
    CallbackMap × Bool :=
  if m.any (fun p => p.1 = questionID) then
    (m.filter (fun p => p.1 ≠ questionID), true)
  else (m, false)

/-- Go `NotifyAll`: non-blocking send into every subscribed channel; an empty
slot fills, a full slot is skipped (the notification is coalesced). -/
def NotifyAll (m : CallbackMap) : CallbackMap :=
  m.map (fun p => (p.1, true))

/-! ## Pending Registry (server.go) -/

/-- The `pendingQuestions` map: question identifier to registration time. -/
abbrev PendingMap := List (String × Nat)

def mapMember (k : String) (m : PendingMap) : Bool :=
  m.any (fun p => p.1 = k)

/-- Go map assignment `m[k] = v`. -/
def mapSet (k : String) (v : Nat) (m : PendingMap) : PendingMap :=
  (k, v) :: m.filter (fun p => p.1 ≠ k)

/-- Go `delete(m, k)`, and the body of `removePendingQuestion`. -/
def removePendingQuestion (questionID : String) (m : PendingMap) : PendingMap :=
  m.filter (fun p => p.1 ≠ questionID)

/-- Server state touched by the ask path: the Pending Registry plus the
answer bookkeeping counters. -/
structure ServerState where
  pendingQuestions : PendingMap
  answeredQuestions : List String
  totalQuestions : Nat
  totalAnswered : Nat

/-- Go `s.pendingQuestions[questionID] = time.Now(); s.totalQuestions++`. -/
def registerPendingSt (questionID : String) (now : Nat) (st : ServerState) :
    ServerState :=
  { st with
    pendingQuestions := mapSet questionID now st.pendingQuestions,
    totalQuestions := st.totalQuestions + 1 }

def removePendingSt (questionID : String) (st : ServerState) : ServerState :=
  { st with pendingQuestions := removePendingQuestion questionID st.pendingQuestions }

/-- Go `recordAnswer`. -/
def recordAnswerSt (questionID : String) (st : ServerState) : ServerState :=
  { st with
    answeredQuestions := questionID :: st.answeredQuestions.filter (fun k => k ≠ questionID),
    totalAnswered := st.totalAnswered + 1 }

/-- Go `cleanupTimeouts`: delete every pending entry older than the timeout. -/
def cleanupTimeouts (timeout : Nat) (now : Nat) (st : ServerState) : ServerState :=
  { st with
    pendingQuestions :=
      st.pendingQuestions.filter (fun p => ¬ (now - p.2 > timeout)) }

/-! ## Rendezvous Coordinator (askQuestion / askQuestionFile, server.go) -/

structure Config where
  maxQuestionLength : Nat
  maxContextLength : Nat
  maxPendingQuestions : Nat
  maxFileSize : Nat
  timeout : Nat

/-- Externally visible side effects of one ask call, in order. -/
inductive AskEvent where
  | subscribe (questionID : String)
  | unsubscribe (questionID : String)
  | appendBlock (questionID question context timestamp : String)
  | registerPending (questionID : String)
  | removePending (questionID : String)
  deriving DecidableEq

/-- One wake-up of the composite wait in `askQuestionFile`: the shutdown
signal, the timeout timer, a watcher notification, or the periodic
reconciliation tick.  The read outcomes (`none` encodes a read error) and
whether the poll tick finds the deadline exceeded are recorded with the
event. -/
inductive WakeEvent where
  | shutdown
  | timerFired
  | notification (content : Option String)
  | pollTick (content : Option String) (elapsedExceeded : Bool)

/-- External IO outcomes consumed by one file-mode ask call. -/
structure AskEnv where
  statOk : Bool
  fileSize : Nat
  appendOk : Bool
  raceContent : Option String
  wakes : List WakeEvent
  questionID : String
  timestamp : String
  now : Nat

/-- The `for { select { ... } }` wait loop of `askQuestionFile`, driven by
the sequence of wake-ups; returns `none` while no terminal event arrived.
Each terminal exit removes the pending entry first. -/
def waitLoop (cfg : Config) (questionID : String) :
    ServerState → List WakeEvent →
    Option (Except AskError String) × ServerState × List AskEvent
  | st, [] => (none, st, [])
  | st, e :: rest =>
    match e with
    | .shutdown =>
      (some (.error .serverShutdown), removePendingSt questionID st,
        [.removePending questionID])
    | .timerFired =>
      (some (.error (.questionTimeout questionID cfg.timeout)),
        removePendingSt questionID st, [.removePending questionID])
    | .notification none => waitLoop cfg questionID st rest
    | .notification (some content) =>
      if (FindAnswer content questionID).2 then
        (some (.ok (FindAnswer content questionID).1),
          recordAnswerSt questionID (removePendingSt questionID st),
          [.removePending questionID])
      else waitLoop cfg questionID st rest
    | .pollTick none _ => waitLoop cfg questionID st rest
    | .pollTick (some content) elapsedExceeded =>
      if (FindAnswer content questionID).2 then
        (some (.ok (FindAnswer content questionID).1),
          recordAnswerSt questionID (removePendingSt questionID st),
          [.removePending questionID])
      else if elapsedExceeded then
        (some (.error (.questionTimeout questionID cfg.timeout)),
          removePendingSt questionID st, [.removePending questionID])
      else waitLoop cfg questionID st rest

/-- Steps of `askQuestionFile` after the race-condition check found no
existing answer: register the pending entry and enter the wait loop. -/
def askFileWait (cfg : Config) (env : AskEnv) (st : ServerState)
    (questionID question contextInfo timestamp : String) :
    Option (Except AskError String) × ServerState × List AskEvent :=
  ((waitLoop cfg questionID (registerPendingSt questionID env.now st) env.wakes).1,
   (waitLoop cfg questionID (registerPendingSt questionID env.now st) env.wakes).2.1,
   [AskEvent.subscribe questionID,
    .appendBlock questionID question contextInfo timestamp,
    .registerPending questionID]
     ++ (waitLoop cfg questionID (registerPendingSt questionID env.now st) env.wakes).2.2
     ++ [.unsubscribe questionID])

/-- Go `askQuestionFile`: file-size precheck, watcher subscription (with the
deferred unsubscription on every later exit), artifact append, race-condition
re-read, pending registration, and the composite wait. -/
def askQuestionFile (cfg : Config) (env : AskEnv) (st : ServerState)
    (questionID question contextInfo timestamp : String) :
    Option (Except AskError String) × ServerState × List AskEvent :=
  if env.statOk ∧ env.fileSize > cfg.maxFileSize then
    (some (.error (.fileTooLarge env.fileSize cfg.maxFileSize)), st, [])
  else if env.appendOk = false then
    (some (.error .fileAccess), st,
      [.subscribe questionID, .unsubscribe questionID])
  else
    match env.raceContent with
    | some content =>
      if (FindAnswer content questionID).2 then
        (some (.ok (FindAnswer content questionID).1),
          recordAnswerSt questionID st,
          [.subscribe questionID,
           .appendBlock questionID question contextInfo timestamp,
           .unsubscribe questionID])
      else askFileWait cfg env st questionID question contextInfo timestamp
    | none => askFileWait cfg env st questionID question contextInfo timestamp

/-- Go `askQuestion` (file mode): validate the question, validate the
context, check the pending-count limit, clean up timed-out entries, then run
the file path.  Every rejection happens before any side effect. -/
def askQuestion (cfg : Config) (env : AskEnv) (st : ServerState)
    (question contextInfo : String) :
    Option (Except AskError String) × ServerState × List AskEvent :=
  match ValidateInput question cfg.maxQuestionLength "Question" with
  | .error e => (some (.error e), st, [])
  | .ok question' =>
    match ValidateInput contextInfo cfg.maxContextLength "Context" with
    | .error e => (some (.error e), st, [])
    | .ok context' =>
      if st.pendingQuestions.length ≥ cfg.maxPendingQuestions then
        (some (.error (.tooManyQuestions st.pendingQuestions.length
          cfg.maxPendingQuestions)), st, [])
      else
        askQuestionFile cfg env (cleanupTimeouts cfg.timeout env.now st)
          env.questionID question' context' env.timestamp

/-! ## Server model lemmas -/

theorem waitLoop_append (cfg : Config) (questionID : String) :
    ∀ (evs : List WakeEvent) (st : ServerState) (rest : List WakeEvent),
      (waitLoop cfg questionID st evs).1 = none →
      waitLoop cfg questionID st (evs ++ rest) = waitLoop cfg questionID st rest := by
  intro evs
  induction evs with
  | nil => intro st rest _; rfl
  | cons e t ih =>
    intro st rest h
    cases e with
    | shutdown => simp [waitLoop] at h
    | timerFired => simp [waitLoop] at h
    | notification c =>
      cases c with
      | none =>
        have h' : (waitLoop cfg questionID st t).1 = none := h
        exact ih st rest h'
      | some content =>
        cases hf : (FindAnswer content questionID).2 with
        | true => simp [waitLoop, hf] at h
        | false =>
          have h' : (waitLoop cfg questionID st t).1 = none := by
            simpa [waitLoop, hf] using h
          simp only [List.cons_append]
          simpa [waitLoop, hf] using ih st rest h'
    | pollTick c b =>
      cases c with
      | none =>
        have h' : (waitLoop cfg questionID st t).1 = none := h
        exact ih st rest h'
      | some content =>
        cases hf : (FindAnswer content questionID).2 with
        | true => simp [waitLoop, hf] at h
        | false =>
          cases b with
          | true => simp [waitLoop, hf] at h
          | false =>
            have h' : (waitLoop cfg questionID st t).1 = none := by
              simpa [waitLoop, hf] using h
            simp only [List.cons_append]
            simpa [waitLoop, hf] using ih st rest h'

theorem waitLoop_trace_events (cfg : Config) (questionID : String) :
    ∀ (evs : List WakeEvent) (st : ServerState) (x : AskEvent),
      x ∈ (waitLoop cfg questionID st evs).2.2 →
      x = AskEvent.removePending questionID := by
  intro evs
  induction evs with
  | nil => intro st x hx; simp [waitLoop] at hx
  | cons e t ih =>
    intro st x hx
    cases e with
    | shutdown => simpa [waitLoop] using hx
    | timerFired => simpa [waitLoop] using hx
    | notification c =>
      cases c with
      | none => exact ih st x hx
      | some content =>
        cases hf : (FindAnswer content questionID).2 with
        | true => simp [waitLoop, hf] at hx; exact hx
        | false =>
          refine ih st x ?_
          simpa [waitLoop, hf] using hx
    | pollTick c b =>
      cases c with
      | none => exact ih st x hx
      | some content =>
        cases hf : (FindAnswer content questionID).2 with
        | true => simp [waitLoop, hf] at hx; exact hx
        | false =>
          cases b with
          | true => simpa [waitLoop, hf] using hx
          | false =>
            refine ih st x ?_
            simpa [waitLoop, hf] using hx

theorem filter_not_member (k : String) (m : PendingMap)
    (h : mapMember k m = false) :
    m.filter (fun p => p.1 ≠ k) = m := by
  apply List.filter_eq_self.mpr
  intro x hx
  rw [mapMember] at h
  have hnot := List.any_eq_false.mp h x hx
  simpa using hnot

theorem removePending_mapSet (k : String) (v : Nat) (m : PendingMap)
    (h : mapMember k m = false) :
    removePendingQuestion k (mapSet k v m) = m := by
  rw [removePendingQuestion, mapSet, List.filter_cons]
  have hd : (decide ((k, v).1 ≠ k)) = false := by simp
  rw [hd]
  simp only [Bool.false_eq_true, if_false]
  rw [filter_not_member k m h, filter_not_member k m h]

theorem mapMember_filter_self (k : String) (m : PendingMap) :
    mapMember k (m.filter (fun p => p.1 ≠ k)) = false := by
  rw [mapMember]
  apply List.any_eq_false.mpr
  intro x hx
  have := (List.mem_filter.mp hx).2
  simpa using this

theorem sanitizeText_data (s : String) :
    (sanitizeText s).data
      = s.data.filter (fun r => r = '\n' || r = '\t' || !(goIsControl r)) := by
  show s.data.filterMap (fun r =>
      if r = '\n' || r = '\t' then some r
      else if goIsControl r then none
      else some r)
    = s.data.filter (fun r => r = '\n' || r = '\t' || !(goIsControl r))
  induction s.data with
  | nil => rfl
  | cons c t ih =>
    by_cases hn : c = '\n'
    · simp [List.filterMap_cons, List.filter_cons, hn]
      simpa using ih
    · by_cases ht : c = '\t'
      · simp [List.filterMap_cons, List.filter_cons, hn, ht]
        simpa using ih
      · by_cases hctl : goIsControl c = true
        · simp [List.filterMap_cons, List.filter_cons, hn, ht, hctl]
          simpa using ih
        · simp [List.filterMap_cons, List.filter_cons, hn, ht, hctl]
          simpa using ih

theorem replaceCR_no_cr : ∀ (l : List Char), '\r' ∉ replaceCR l := by
  intro l
  induction l with
  | nil => simp [replaceCR]
  | cons c t ih =>
    rw [replaceCR]
    intro hmem
    rcases List.mem_cons.mp hmem with h | h
    · by_cases hc : c = '\r'
      · rw [if_pos hc] at h
        cases h
      · rw [if_neg hc] at h
        exact hc h.symm
    · exact ih h

/-! ## Claim C3 -/

/-- C3: `askQuestion` rejects an oversized question with its own error, an
oversized context with a distinct error, and a full pending registry with a
distinct "too many pending" error; every rejection returns the state
unchanged with no emitted side effect, and the three errors are pairwise
distinct. -/
theorem c3_validation_rejections (cfg : Config) (env : AskEnv) (st : ServerState)
    (question contextInfo : String) :
    (question.utf8ByteSize > cfg.maxQuestionLength →
      askQuestion cfg env st question contextInfo
        = (some (.error (.inputValidation "Question" question.utf8ByteSize
            cfg.maxQuestionLength)), st, [])) ∧
    (question.utf8ByteSize ≤ cfg.maxQuestionLength →
      contextInfo.utf8ByteSize > cfg.maxContextLength →
      askQuestion cfg env st question contextInfo
        = (some (.error (.inputValidation "Context" contextInfo.utf8ByteSize
            cfg.maxContextLength)), st, [])) ∧
    (question.utf8ByteSize ≤ cfg.maxQuestionLength →
      contextInfo.utf8ByteSize ≤ cfg.maxContextLength →
      st.pendingQuestions.length ≥ cfg.maxPendingQuestions →
      askQuestion cfg env st question contextInfo
        = (some (.error (.tooManyQuestions st.pendingQuestions.length
            cfg.maxPendingQuestions)), st, [])) ∧
    (∀ n1 m1 n2 m2 k1 k2 : Nat,
      AskError.inputValidation "Question" n1 m1 ≠ AskError.inputValidation "Context" n2 m2 ∧
      AskError.inputValidation "Question" n1 m1 ≠ AskError.tooManyQuestions k1 k2 ∧
      AskError.inputValidation "Context" n2 m2 ≠ AskError.tooManyQuestions k1 k2) := by
  refine ⟨?_, ?_, ?_, ?_⟩
  · intro h
    unfold askQuestion ValidateInput
    rw [if_pos h]
  · intro h1 h2
    unfold askQuestion ValidateInput
    rw [if_neg (Nat.not_lt.mpr h1), if_pos h2]
  · intro h1 h2 h3
    unfold askQuestion ValidateInput
    rw [if_neg (Nat.not_lt.mpr h1), if_neg (Nat.not_lt.mpr h2)]
    exact if_pos h3
  · intro n1 m1 n2 m2 k1 k2
    refine ⟨?_, ?_, ?_⟩
    · intro h
      injection h with hf _ _
      exact absurd hf (by decide)
    · intro h
      exact AskError.noConfusion h
    · intro h
      exact AskError.noConfusion h

/-- Witness for C3: an oversized question is rejected with the
question-specific error and no state change. -/
theorem c3_validation_rejections_witness :
    askQuestion ⟨2, 10, 5, 100, 60⟩ ⟨true, 0, true, none, [], "Q1", "ts", 7⟩
        ⟨[], [], 0, 0⟩ "aaa" ""
      = (some (.error (.inputValidation "Question" 3 2)), ⟨[], [], 0, 0⟩, []) :=
  (c3_validation_rejections ⟨2, 10, 5, 100, 60⟩ ⟨true, 0, true, none, [], "Q1", "ts", 7⟩
    ⟨[], [], 0, 0⟩ "aaa" "").1 (by decide)

/-! ## Claim C4 -/

/-- C4: a file-mode ask call whose wait ends with the timeout (either the
timer channel or a reconciliation tick observing the elapsed deadline)
returns the timeout error carrying the question identifier and the
configured duration, and the pending registry ends exactly as it began: the
entry is removed, the identifier is no longer present, and the trace shows
exactly one pending-removal for the call. -/
theorem c4_timeout_cleanup (cfg : Config) (env : AskEnv) (st : ServerState)
    (q c : String) (evs : List WakeEvent) (last : WakeEvent)
    (Hsize : ¬ (env.statOk = true ∧ env.fileSize > cfg.maxFileSize))
    (Happ : env.appendOk = true)
    (Hrace : env.raceContent = none ∨
      ∃ cc, env.raceContent = some cc ∧ (FindAnswer cc env.questionID).2 = false)
    (Hfresh : mapMember env.questionID st.pendingQuestions = false)
    (Hwakes : env.wakes = evs ++ [last])
    (Hpre : (waitLoop cfg env.questionID
      (registerPendingSt env.questionID env.now st) evs).1 = none)
    (Hlast : last = .timerFired ∨
      ∃ cc, last = .pollTick (some cc) true ∧ (FindAnswer cc env.questionID).2 = false) :
    (askQuestionFile cfg env st env.questionID q c env.timestamp).1
      = some (.error (.questionTimeout env.questionID cfg.timeout)) ∧
    (askQuestionFile cfg env st env.questionID q c env.timestamp).2.1.pendingQuestions
      = st.pendingQuestions ∧
    mapMember env.questionID
      (askQuestionFile cfg env st env.questionID q c env.timestamp).2.1.pendingQuestions
      = false ∧
    ((askQuestionFile cfg env st env.questionID q c env.timestamp).2.2.filter
      (fun e => e = AskEvent.removePending env.questionID)).length = 1 := by
  have hfile : askQuestionFile cfg env st env.questionID q c env.timestamp
      = askFileWait cfg env st env.questionID q c env.timestamp := by
    unfold askQuestionFile
    rw [if_neg Hsize, if_neg (by simp [Happ])]
    rcases Hrace with h | ⟨cc, hcc, hnf⟩
    · rw [h]
    · rw [hcc]
      exact if_neg (by simp [hnf])
  have hloop : waitLoop cfg env.questionID
      (registerPendingSt env.questionID env.now st) env.wakes
      = (some (.error (.questionTimeout env.questionID cfg.timeout)),
          removePendingSt env.questionID
            (registerPendingSt env.questionID env.now st),
          [.removePending env.questionID]) := by
    rw [Hwakes, waitLoop_append cfg env.questionID evs _ [last] Hpre]
    rcases Hlast with h | ⟨cc, h, hnf⟩
    · rw [h]
      rfl
    · rw [h]
      simp [waitLoop, hnf]
  have hpend : (removePendingSt env.questionID
      (registerPendingSt env.questionID env.now st)).pendingQuestions
      = st.pendingQuestions := by
    show removePendingQuestion env.questionID
      (mapSet env.questionID env.now st.pendingQuestions) = st.pendingQuestions
    exact removePending_mapSet env.questionID env.now st.pendingQuestions Hfresh
  rw [hfile]
  unfold askFileWait
  rw [hloop]
  refine ⟨rfl, hpend, ?_, ?_⟩
  · rw [hpend]
    exact Hfresh
  · simp [List.filter_cons]

/-- Witness for C4: the timer fires with nothing answered. -/
theorem c4_timeout_cleanup_witness :
    (askQuestionFile ⟨10, 10, 5, 100, 60⟩
        ⟨true, 0, true, none, [WakeEvent.timerFired], "Q1", "ts", 7⟩
        ⟨[], [], 0, 0⟩ "Q1" "q" "c" "ts").1
      = some (.error (.questionTimeout "Q1" 60)) ∧
    (askQuestionFile ⟨10, 10, 5, 100, 60⟩
        ⟨true, 0, true, none, [WakeEvent.timerFired], "Q1", "ts", 7⟩
        ⟨[], [], 0, 0⟩ "Q1" "q" "c" "ts").2.1.pendingQuestions = [] :=
  have h := c4_timeout_cleanup ⟨10, 10, 5, 100, 60⟩
    ⟨true, 0, true, none, [WakeEvent.timerFired], "Q1", "ts", 7⟩
    ⟨[], [], 0, 0⟩ "q" "c" [] .timerFired
    (by simp) rfl (Or.inl rfl) rfl rfl rfl (Or.inl rfl)
  ⟨h.1, h.2.1⟩

/-! ## Claim C5 -/

/-- C5: once past the size precheck, the first side effect of every
file-mode ask call is the notification subscription (so it precedes the
artifact append); and when the append fails the call returns the
artifact-access error, unsubscribes, and leaves the entire state (the
pending registry included) unchanged. -/
theorem c5_subscribe_first_append_failure (cfg : Config) (env : AskEnv)
    (st : ServerState) (q c : String)
    (Hsize : ¬ (env.statOk = true ∧ env.fileSize > cfg.maxFileSize)) :
    (∃ tl, (askQuestionFile cfg env st env.questionID q c env.timestamp).2.2
      = AskEvent.subscribe env.questionID :: tl) ∧
    (env.appendOk = false →
      askQuestionFile cfg env st env.questionID q c env.timestamp
        = (some (.error .fileAccess), st,
            [.subscribe env.questionID, .unsubscribe env.questionID])) := by
  constructor
  · unfold askQuestionFile
    rw [if_neg Hsize]
    by_cases happ : env.appendOk = false
    · rw [if_pos happ]
      exact ⟨_, rfl⟩
    · rw [if_neg happ]
      cases env.raceContent with
      | some content =>
        by_cases hf : (FindAnswer content env.questionID).2 = true
        · exact ⟨_, congrArg
            (fun x : Option (Except AskError String) × ServerState × List AskEvent =>
              x.2.2) (if_pos hf)⟩
        · exact ⟨_, congrArg
            (fun x : Option (Except AskError String) × ServerState × List AskEvent =>
              x.2.2) (if_neg hf)⟩
      | none =>
        exact ⟨_, rfl⟩
  · intro happ
    unfold askQuestionFile
    rw [if_neg Hsize, if_pos happ]

/-- Witness for C5: the artifact append fails. -/
theorem c5_subscribe_first_append_failure_witness :
    askQuestionFile ⟨10, 10, 5, 100, 60⟩ ⟨true, 0, false, none, [], "Q1", "ts", 7⟩
        ⟨[], [], 0, 0⟩ "Q1" "q" "c" "ts"
      = (some (.error .fileAccess), ⟨[], [], 0, 0⟩,
          [.subscribe "Q1", .unsubscribe "Q1"]) :=
  (c5_subscribe_first_append_failure ⟨10, 10, 5, 100, 60⟩
    ⟨true, 0, false, none, [], "Q1", "ts", 7⟩ ⟨[], [], 0, 0⟩ "q" "c" (by simp)).2 rfl

/-! ## Claim C7 -/

/-- C7: `SafeWriteText` stores the line-ending-normalised text after
creating the parent directory, via a temporary sibling and an atomic rename;
on rename failure the temporary file is removed, the error surfaces, and the
target artifact keeps its previous content; and the normalised text contains
no carriage return (every CRLF and CR became LF). -/
theorem c7_safe_write (env : WriteEnv) (fs : ArtifactFS) (content : String) :
    ((SafeWriteText env fs content).1 = .ok () →
      (SafeWriteText env fs content).2
        = ⟨true, some (NormalizeLineEndings content), none⟩) ∧
    (env.mkdirOk = true → env.writeTmpOk = true → env.renameOk = false →
      SafeWriteText env fs content
        = (.error .renameFailed, { fs with dirExists := true, tmpFile := none })) ∧
    '\r' ∉ (NormalizeLineEndings content).data := by
  refine ⟨?_, ?_, ?_⟩
  · intro h
    unfold SafeWriteText at h ⊢
    by_cases hm : env.mkdirOk = true
    · by_cases hw : env.writeTmpOk = true
      · by_cases hr : env.renameOk = true
        · simp [hm, hw, hr]
        · rw [Bool.not_eq_true] at hr
          simp [hm, hw, hr] at h
      · rw [Bool.not_eq_true] at hw
        simp [hm, hw] at h
    · rw [Bool.not_eq_true] at hm
      simp [hm] at h
  · intro hm hw hr
    unfold SafeWriteText
    simp [hm, hw, hr]
  · show '\r' ∉ replaceCR (replaceCRLF content.data)
    exact replaceCR_no_cr _

/-- Witness for C7: a failed rename leaves the old artifact and no
temporary file. -/
theorem c7_safe_write_witness :
    SafeWriteText ⟨true, true, false⟩ ⟨false, some "old", none⟩ "a\r\nb"
      = (.error .renameFailed, ⟨true, some "old", none⟩) :=
  (c7_safe_write ⟨true, true, false⟩ ⟨false, some "old", none⟩ "a\r\nb").2.1 rfl rfl rfl

/-! ## Claim C8 -/

/-- C8: unsubscribing the same identifier twice, or removing the same
pending entry twice, has no observable effect on the second call: the second
unsubscribe finds no channel, closes nothing and leaves the map unchanged,
and the second removal returns the registry unchanged. -/
theorem c8_unsubscribe_remove_idempotent (questionID : String)
    (m : CallbackMap) (p : PendingMap) :
    UnregisterCallback questionID (UnregisterCallback questionID m).1
      = ((UnregisterCallback questionID m).1, false) ∧
    removePendingQuestion questionID (removePendingQuestion questionID p)
      = removePendingQuestion questionID p := by
  constructor
  · by_cases h : m.any (fun p => p.1 = questionID) = true
    · have e1 : UnregisterCallback questionID m
          = (m.filter (fun p => p.1 ≠ questionID), true) := by
        unfold UnregisterCallback
        rw [if_pos h]
      rw [e1]
      have hno : (m.filter (fun p => p.1 ≠ questionID)).any
          (fun p => p.1 = questionID) = false := by
        apply List.any_eq_false.mpr
        intro x hx
        have hx2 := (List.mem_filter.mp hx).2
        simpa using hx2
      show UnregisterCallback questionID (m.filter (fun p => p.1 ≠ questionID))
        = (m.filter (fun p => p.1 ≠ questionID), false)
      unfold UnregisterCallback
      rw [if_neg (by intro hh; rw [hno] at hh; exact absurd hh (by decide))]
    · have e1 : UnregisterCallback questionID m = (m, false) := by
        unfold UnregisterCallback
        rw [if_neg h]
      rw [e1]
      show UnregisterCallback questionID m = (m, false)
      unfold UnregisterCallback
      rw [if_neg h]
  · apply List.filter_eq_self.mpr
    intro x hx
    exact (List.mem_filter.mp hx).2

theorem askQuestionFile_appendBlock_mem (cfg : Config) (env : AskEnv)
    (st : ServerState) (qid q c ts : String) (i qq cc tt : String)
    (hmem : AskEvent.appendBlock i qq cc tt
      ∈ (askQuestionFile cfg env st qid q c ts).2.2) :
    i = qid ∧ qq = q ∧ cc = c ∧ tt = ts := by
  revert hmem
  unfold askQuestionFile
  split
  · intro hmem
    simp at hmem
  · split
    · intro hmem
      simp at hmem
    · split
      · split
        · intro hmem
          simp at hmem
          exact hmem
        · unfold askFileWait
          intro hmem
          simp at hmem
          rcases hmem with ⟨h1, h2, h3, h4⟩ | hloop
          · exact ⟨h1, h2, h3, h4⟩
          · have := waitLoop_trace_events cfg qid env.wakes _ _ hloop
            exact absurd this (by simp)
      · unfold askFileWait
        intro hmem
        simp at hmem
        rcases hmem with ⟨h1, h2, h3, h4⟩ | hloop
        · exact ⟨h1, h2, h3, h4⟩
        · have := waitLoop_trace_events cfg qid env.wakes _ _ hloop
          exact absurd this (by simp)

/-! ## Claim C9 -/

/-- C9 (implicit): for inputs within the length limits, `ValidateInput`
succeeds and rewrites the input, deleting every control character other than
newline and tab; the ask path then carries this sanitised text into the
artifact append, so the written question and context may differ from the
original inputs of the caller. -/
theorem c9_sanitized_inputs (cfg : Config) (env : AskEnv) (st : ServerState)
    (question contextInfo : String)
    (Hq : question.utf8ByteSize ≤ cfg.maxQuestionLength)
    (Hc : contextInfo.utf8ByteSize ≤ cfg.maxContextLength) :
    ValidateInput question cfg.maxQuestionLength "Question"
      = .ok (sanitizeText question) ∧
    (sanitizeText question).data
      = question.data.filter (fun r => r = '\n' || r = '\t' || !(goIsControl r)) ∧
    (∀ i qq cc tt, AskEvent.appendBlock i qq cc tt
        ∈ (askQuestion cfg env st question contextInfo).2.2 →
      qq = sanitizeText question ∧ cc = sanitizeText contextInfo) ∧
    (∃ t : String, sanitizeText t ≠ t) := by
  refine ⟨?_, sanitizeText_data question, ?_, ?_⟩
  · unfold ValidateInput
    rw [if_neg (Nat.not_lt.mpr Hq)]
  · have hask : askQuestion cfg env st question contextInfo
        = (if st.pendingQuestions.length ≥ cfg.maxPendingQuestions then
            (some (.error (.tooManyQuestions st.pendingQuestions.length
              cfg.maxPendingQuestions)), st, [])
          else askQuestionFile cfg env (cleanupTimeouts cfg.timeout env.now st)
            env.questionID (sanitizeText question) (sanitizeText contextInfo)
            env.timestamp) := by
      unfold askQuestion ValidateInput
      rw [if_neg (Nat.not_lt.mpr Hq), if_neg (Nat.not_lt.mpr Hc)]
    intro i qq cc tt hmem
    rw [hask] at hmem
    by_cases hp : st.pendingQuestions.length ≥ cfg.maxPendingQuestions
    · rw [if_pos hp] at hmem
      simp at hmem
    · rw [if_neg hp] at hmem
      have h := askQuestionFile_appendBlock_mem cfg env
        (cleanupTimeouts cfg.timeout env.now st) env.questionID
        (sanitizeText question) (sanitizeText contextInfo) env.timestamp
        i qq cc tt hmem
      exact ⟨h.2.1, h.2.2.1⟩
  · refine ⟨⟨[Char.ofNat 1]⟩, ?_⟩
    decide

/-- Witness for C9: a question holding a control character passes validation but is
rewritten before the append. -/
theorem c9_sanitized_inputs_witness :
    ValidateInput "ab" 10 "Question" = .ok (sanitizeText "ab") ∧
    (sanitizeText "ab").data
      = "ab".data.filter (fun r => r = '\n' || r = '\t' || !(goIsControl r)) :=
  have h := c9_sanitized_inputs ⟨10, 10, 5, 100, 60⟩
    ⟨true, 0, true, none, [], "Q1", "ts", 7⟩ ⟨[], [], 0, 0⟩ "ab" ""
    (by decide) (by decide)
  ⟨h.1, h.2.1⟩

/-! ## Claim C10 -/

/-- C10 (implicit): in file mode, when the artifact exists (the stat
succeeds) and its size exceeds the configured maximum, the call returns the
file-too-large error before any side effect: no subscription, no append, no
pending registration (the trace is empty and the state unchanged). -/
theorem c10_file_too_large_precheck (cfg : Config) (env : AskEnv)
    (st : ServerState) (q c : String)
    (Hstat : env.statOk = true) (Hsize : env.fileSize > cfg.maxFileSize) :
    askQuestionFile cfg env st env.questionID q c env.timestamp
      = (some (.error (.fileTooLarge env.fileSize cfg.maxFileSize)), st, []) := by
  unfold askQuestionFile
  rw [if_pos ⟨Hstat, Hsize⟩]

/-- Witness for C10: a 101-byte artifact against a 100-byte limit. -/
theorem c10_file_too_large_precheck_witness :
    askQuestionFile ⟨10, 10, 5, 100, 60⟩ ⟨true, 101, true, none, [], "Q1", "ts", 7⟩
        ⟨[], [], 0, 0⟩ "Q1" "q" "c" "ts"
      = (some (.error (.fileTooLarge 101 100)), ⟨[], [], 0, 0⟩, []) :=
  c10_file_too_large_precheck ⟨10, 10, 5, 100, 60⟩
    ⟨true, 101, true, none, [], "Q1", "ts", 7⟩ ⟨[], [], 0, 0⟩ "q" "c" rfl (by decide)

end AskHuman
